import Mathlib

/-!
Verification development for the jbrotli native streaming-decompressor
boundary (`org_meteogroup_jbrotli_BrotliStreamDeCompressor.h`).

The repository fragment under inspection is a machine-generated JNI header:
it declares five native entry points and carries, for each, the
machine-generated Java method signature in a comment.  The header is embedded
here at two levels:

1. a faithful record of each declaration (C return type, receiver kind,
   C parameter list, and the Java descriptor signature from the comment);
2. a model of the boundary contract the spec documents for these entry
   points (handle lifecycle, slice-based incremental decode, error taxonomy),
   since the method bodies are not part of the fragment.
-/

/-- C-side JNI types appearing in the header's declarations. -/
inductive CType where
  | jvoid
  | jint
  | jlong
  | jobject
  | jclass
  | jbyteArray
  deriving DecidableEq

/-- Java type descriptors as they appear in the generated signature
comments (`B`, `I`, `J`, `V`, `[d`, `Lpkg/Class;`).  A class descriptor
carries its slash-separated name parts. -/
inductive JDesc where
  | B
  | I
  | J
  | V
  | arr (d : JDesc)
  | cls (parts : List String)
  deriving DecidableEq

/-- Whether a C JNI type is a reference type (pointer into the JVM heap)
rather than a primitive value. -/
def CType.isReferenceType : CType → Bool
  | CType.jobject => true
  | CType.jclass => true
  | CType.jbyteArray => true
  | _ => false

/-- Whether a Java descriptor denotes a reference type. -/
def JDesc.isReferenceDesc : JDesc → Bool
  | JDesc.arr _ => true
  | JDesc.cls _ => true
  | _ => false

/-- Whether a C JNI type is the one that implements a given Java
descriptor at the JNI boundary. -/
def cMatchesDesc : CType → JDesc → Bool
  | CType.jvoid, JDesc.V => true
  | CType.jint, JDesc.I => true
  | CType.jlong, JDesc.J => true
  | CType.jobject, JDesc.cls _ => true
  | CType.jobject, JDesc.arr _ => true
  | CType.jbyteArray, JDesc.arr JDesc.B => true
  | _, _ => false

/-- One native-method declaration from the header: the declared C return
type, the receiver argument (`jclass` for a static method, `jobject` for an
instance method), the C parameter types after the receiver, and the Java
signature from the generated comment split into parameter descriptors and
return descriptor. -/
structure JNIDecl where
  cReturnType : CType
  receiver : CType
  cParams : List CType
  sigParams : List JDesc
  sigReturn : JDesc
  deriving DecidableEq

/-- Declaration of `initJavaFieldIdCache`: `jint (JNIEnv *, jclass)`,
signature comment `()I`. -/
def Java_org_meteogroup_jbrotli_BrotliStreamDeCompressor_initJavaFieldIdCache : JNIDecl :=
  ⟨CType.jint, CType.jclass, [], [], JDesc.I⟩

/-- Declaration of `initBrotliDeCompressor`: `jint (JNIEnv *, jobject)`,
signature comment `()I`. -/
def Java_org_meteogroup_jbrotli_BrotliStreamDeCompressor_initBrotliDeCompressor : JNIDecl :=
  ⟨CType.jint, CType.jobject, [], [], JDesc.I⟩

/-- Declaration of `freeNativeResources`: `jint (JNIEnv *, jobject)`,
signature comment `()I`. -/
def Java_org_meteogroup_jbrotli_BrotliStreamDeCompressor_freeNativeResources : JNIDecl :=
  ⟨CType.jint, CType.jobject, [], [], JDesc.I⟩

/-- Declaration of `deCompressBytes`:
`jobject (JNIEnv *, jobject, jbyteArray, jint, jint, jbyteArray, jint, jint)`,
signature comment `([BII[BII)J`. -/
def Java_org_meteogroup_jbrotli_BrotliStreamDeCompressor_deCompressBytes : JNIDecl :=
  ⟨CType.jobject, CType.jobject,
    [CType.jbyteArray, CType.jint, CType.jint, CType.jbyteArray, CType.jint, CType.jint],
    [JDesc.arr JDesc.B, JDesc.I, JDesc.I, JDesc.arr JDesc.B, JDesc.I, JDesc.I],
    JDesc.J⟩

/-- Declaration of `deCompressByteBuffer`:
`jobject (JNIEnv *, jobject, jobject, jint, jint, jobject, jint, jint)`,
signature comment `(Ljava/nio/ByteBuffer;IILjava/nio/ByteBuffer;II)J`. -/
def Java_org_meteogroup_jbrotli_BrotliStreamDeCompressor_deCompressByteBuffer : JNIDecl :=
  ⟨CType.jobject, CType.jobject,
    [CType.jobject, CType.jint, CType.jint, CType.jobject, CType.jint, CType.jint],
    [JDesc.cls (["java", "nio", "ByteBuffer"]), JDesc.I, JDesc.I,
      JDesc.cls (["java", "nio", "ByteBuffer"]), JDesc.I, JDesc.I],
    JDesc.J⟩

/-- Continuation/terminal status of one decode call, as named by the spec. -/
inductive DecodeStatus where
  | NEEDS_MORE_INPUT
  | HAS_MORE_OUTPUT
  | FINISHED
  | ERROR
  deriving DecidableEq

/-- Composite per-call result: input bytes consumed, output bytes produced,
and the call status.  One plain value type, constructed once per call. -/
structure DecodeResult where
  consumed : Nat
  produced : Nat
  status : DecodeStatus
  deriving DecidableEq

/-- Error taxonomy of the boundary contract. -/
inductive BrotliError where
  | InitializationError
  | InvalidArgumentError
  | CorruptStreamError
  | UseAfterReleaseError
  deriving DecidableEq

/-- Modelled from the spec: the view the external Brotli codec collaborator
gives of an input byte sequence fed so far — either the decoded output
produced from it together with a stream-finished flag, or a corruption
verdict.  The codec itself is out of scope of the fragment, so models below
take such a codec function as an explicit collaborator argument. -/
inductive CodecView where
  | ok (output : List Nat) (fin : Bool)
  | corrupt
  deriving DecidableEq

/-- Modelled from the spec: the mutable per-handle decoder state advanced by
decode calls — the bytes fed into the decoder so far and the number of
decoded output bytes already handed to the caller. -/
structure DecoderState where
  fed : List Nat
  emitted : Nat
  deriving DecidableEq

/-- Modelled from the spec: lifecycle phase of a DecoderHandle — not yet
initialized, active with decoder state, unusable after a corrupt stream,
or released. -/
inductive HandleState where
  | fresh
  | active (st : DecoderState)
  | errored
  | released
  deriving DecidableEq

/-- Modelled from the spec (the method body is absent from the fragment):
the decode core shared by both decompress entry points.  Feeding `chunk`
appends it to the bytes fed so far; the codec's view of the fed bytes
yields the decoded output available so far, of which up to `outCap` not yet
emitted bytes are produced now.  Returns the composite result, the bytes
written to the output region, and the successor handle state. -/
def decodeStep (dec : List Nat → CodecView) (st : DecoderState)
    (chunk : List Nat) (outCap : Nat) :
    DecodeResult × List Nat × HandleState :=
  let fed := st.fed ++ chunk
  match dec fed with
  | CodecView.corrupt =>
      (⟨chunk.length, 0, DecodeStatus.ERROR⟩, [], HandleState.errored)
  | CodecView.ok out fin =>
      let avail := out.drop st.emitted
      let emitNow := avail.take outCap
      (⟨chunk.length, emitNow.length,
          if outCap < avail.length then DecodeStatus.HAS_MORE_OUTPUT
          else if fin then DecodeStatus.FINISHED
          else DecodeStatus.NEEDS_MORE_INPUT⟩,
        emitNow,
        HandleState.active ⟨fed, st.emitted + emitNow.length⟩)

/-- A caller-supplied view (backing buffer, offset, length) for one call. -/
structure ArraySlice where
  backing : List Nat
  off : Nat
  len : Nat
  deriving DecidableEq

/-- Bounds constraint on a slice: offset + length within the backing. -/
def sliceOk (s : ArraySlice) : Prop :=
  s.off + s.len ≤ s.backing.length

instance (s : ArraySlice) : Decidable (sliceOk s) := by
  unfold sliceOk
  infer_instance

/-- The bytes a slice designates in its backing buffer. -/
def readSlice (s : ArraySlice) : List Nat :=
  (s.backing.drop s.off).take s.len

/-- The backing buffer after writing `bytes` at the slice's offset,
leaving everything outside the written range unchanged. -/
def writeSlice (s : ArraySlice) (bytes : List Nat) : List Nat :=
  s.backing.take s.off ++ bytes ++ s.backing.drop (s.off + bytes.length)

deriving instance DecidableEq for Except

/-- Everything one boundary decompress call hands back or changes: the
composite result (or a boundary error), the successor handle state, the
output backing after the call, and whether native memory was accessed. -/
structure CallOut where
  res : Except BrotliError DecodeResult
  handle : HandleState
  outBacking : List Nat
  nativeTouched : Bool
  deriving DecidableEq

/-- Modelled from the spec (the method body is absent from the fragment):
the `deCompressBytes` entry point.  A call on a handle that is not active
fails without touching native memory; argument bounds are checked before
any native access; a valid call on an active handle runs the decode core
over the input slice's bytes and writes the produced bytes into the output
slice's region. -/
def deCompressBytesM (dec : List Nat → CodecView) (h : HandleState)
    (input output : ArraySlice) : CallOut :=
  match h with
  | HandleState.fresh =>
      ⟨Except.error BrotliError.InitializationError, h, output.backing, false⟩
  | HandleState.released =>
      ⟨Except.error BrotliError.UseAfterReleaseError, h, output.backing, false⟩
  | HandleState.errored =>
      ⟨Except.error BrotliError.CorruptStreamError, h, output.backing, false⟩
  | HandleState.active st =>
      if sliceOk input ∧ sliceOk output then
        let step := decodeStep dec st (readSlice input) output.len
        ⟨Except.ok step.1, step.2.2, writeSlice output step.2.1, true⟩
      else
        ⟨Except.error BrotliError.InvalidArgumentError, h, output.backing, false⟩

/-- A caller-managed buffer view (the `java.nio.ByteBuffer` argument of the
buffer overload), carrying its contents. -/
structure ByteBuf where
  data : List Nat
  deriving DecidableEq

/-- Region extraction used by the buffer-view marshalling path. -/
def readBufRegion (b : ByteBuf) (off len : Nat) : List Nat :=
  (b.data.take (off + len)).drop off

/-- Modelled from the spec (the method body is absent from the fragment):
the `deCompressByteBuffer` entry point — the same contract as
`deCompressBytesM`, reached through the buffer-view marshalling path:
bounds are checked on the buffer capacities and the input region is
extracted from the buffer view. -/
def deCompressByteBufferM (dec : List Nat → CodecView) (h : HandleState)
    (inBuf : ByteBuf) (inOff inLen : Nat)
    (outBuf : ByteBuf) (outOff outLen : Nat) : CallOut :=
  match h with
  | HandleState.fresh =>
      ⟨Except.error BrotliError.InitializationError, h, outBuf.data, false⟩
  | HandleState.released =>
      ⟨Except.error BrotliError.UseAfterReleaseError, h, outBuf.data, false⟩
  | HandleState.errored =>
      ⟨Except.error BrotliError.CorruptStreamError, h, outBuf.data, false⟩
  | HandleState.active st =>
      if inOff ≤ inBuf.data.length ∧ inLen ≤ inBuf.data.length - inOff ∧
          outOff ≤ outBuf.data.length ∧ outLen ≤ outBuf.data.length - outOff then
        let step := decodeStep dec st (readBufRegion inBuf inOff inLen) outLen
        ⟨Except.ok step.1, step.2.2,
          outBuf.data.take outOff ++ step.2.1 ++
            outBuf.data.drop (outOff + step.2.1.length),
          true⟩
      else
        ⟨Except.error BrotliError.InvalidArgumentError, h, outBuf.data, false⟩

/-- Modelled from the spec (the method body is absent from the fragment):
`initBrotliDeCompressor` — allocates a fresh native decoder for a handle
that does not currently own one; fails with `InitializationError` when the
instance is already initialized (or is errored and was not yet released). -/
def initBrotliDeCompressorM (h : HandleState) : Except BrotliError HandleState :=
  match h with
  | HandleState.fresh => Except.ok (HandleState.active ⟨[], 0⟩)
  | HandleState.released => Except.ok (HandleState.active ⟨[], 0⟩)
  | HandleState.active _ => Except.error BrotliError.InitializationError
  | HandleState.errored => Except.error BrotliError.InitializationError

/-- Modelled from the spec (the method body is absent from the fragment):
`freeNativeResources` — always succeeds (status 0), leaves the handle
released, and reports how many native decoder allocations it freed
(1 when the handle owned one, 0 otherwise). -/
def freeNativeResourcesM (h : HandleState) : Int × HandleState × Nat :=
  match h with
  | HandleState.active _ => (0, HandleState.released, 1)
  | HandleState.errored => (0, HandleState.released, 1)
  | HandleState.released => (0, HandleState.released, 0)
  | HandleState.fresh => (0, HandleState.released, 0)

/-- Number of live native decoder allocations a handle state owns. -/
def allocCount : HandleState → Nat
  | HandleState.active _ => 1
  | HandleState.errored => 1
  | HandleState.fresh => 0
  | HandleState.released => 0

/-- One boundary operation issued against a StreamDecompressor instance. -/
inductive Op where
  | opInit
  | opFree
  | opCall (input output : ArraySlice)
  deriving DecidableEq

/-- Effect of one operation on the handle, together with how many native
allocations the operation performed and how many it freed. -/
def opStep (dec : List Nat → CodecView) (h : HandleState) : Op → HandleState × Nat × Nat
  | Op.opInit =>
      match initBrotliDeCompressorM h with
      | Except.ok h' => (h', 1, 0)
      | Except.error _ => (h, 0, 0)
  | Op.opFree =>
      let r := freeNativeResourcesM h
      (r.2.1, 0, r.2.2)
  | Op.opCall input output =>
      ((deCompressBytesM dec h input output).handle, 0, 0)

/-- Run a sequence of boundary operations, accumulating total native
allocations and frees. -/
def runOps (dec : List Nat → CodecView) : HandleState → List Op → HandleState × Nat × Nat
  | h, [] => (h, 0, 0)
  | h, op :: rest =>
      let s := opStep dec h op
      let r := runOps dec s.1 rest
      (r.1, s.2.1 + r.2.1, s.2.2 + r.2.2)

/-- Chunked decoding driver: issue one decode-core call per
(input chunk, output capacity) pair, concatenating the bytes each call
produced.  Stops if the codec reports corruption. -/
def runCalls (dec : List Nat → CodecView) :
    DecoderState → List (List Nat × Nat) → List Nat × DecoderState
  | st, [] => ([], st)
  | st, c :: rest =>
      match decodeStep dec st c.1 c.2 with
      | (_, emitted, HandleState.active st') =>
          let r := runCalls dec st' rest
          (emitted ++ r.1, r.2)
      | (_, emitted, _) => (emitted, st)

/-- The input chunks of a call sequence, concatenated. -/
def joinChunks (calls : List (List Nat × Nat)) : List Nat :=
  calls.foldr (fun c acc => c.1 ++ acc) []

/-- Length of the decoded output the codec makes available for a fed
byte sequence. -/
def outLenAt (dec : List Nat → CodecView) (l : List Nat) : Nat :=
  match dec l with
  | CodecView.ok out _ => out.length
  | CodecView.corrupt => 0

/-- Modelled from the spec: the well-formedness a streaming codec
collaborator is assumed to satisfy — on a longer fed sequence it never
retracts output already determined by a shorter one (`mono`), and it does
not call a fed sequence corrupt when some extension of it is well formed
(`extendOk`). -/
structure GoodCodec (dec : List Nat → CodecView) : Prop where
  mono : ∀ a b out fin out2 fin2, dec a = CodecView.ok out fin →
    dec (a ++ b) = CodecView.ok out2 fin2 → out2.take out.length = out
  extendOk : ∀ a b out fin, dec (a ++ b) = CodecView.ok out fin →
    ∃ o f, dec a = CodecView.ok o f

/-- A toy codec used to exercise the model on concrete inputs: the decoded
output is the fed bytes themselves, and the stream is always finished. -/
def idCodec (l : List Nat) : CodecView :=
  CodecView.ok l true

/-- A toy codec: decoded output is everything before the first 255 byte,
and the stream is finished once a 255 byte arrived. -/
def sentinelCodec (l : List Nat) : CodecView :=
  CodecView.ok (l.takeWhile (fun b => b != 255)) (l.contains 255)

/-- A toy codec that treats any 0 byte as stream corruption, and otherwise
behaves like `sentinelCodec`. -/
def strictCodec (l : List Nat) : CodecView :=
  if l.contains 0 then CodecView.corrupt
  else CodecView.ok (l.takeWhile (fun b => b != 255)) (l.contains 255)

/-- The composite result a valid decompress call reports, as a standalone
function of the call's semantic inputs: consumed is the whole input region,
produced is the smaller of the output capacity and the output still
pending, and the status classifies continuation. -/
def decodeResultOf (dec : List Nat → CodecView) (st : DecoderState)
    (input output : ArraySlice) : DecodeResult :=
  match dec (st.fed ++ readSlice input) with
  | CodecView.corrupt =>
      ⟨(readSlice input).length, 0, DecodeStatus.ERROR⟩
  | CodecView.ok out fin =>
      let pending := out.length - st.emitted
      ⟨(readSlice input).length, min output.len pending,
        if output.len < pending then DecodeStatus.HAS_MORE_OUTPUT
        else if fin then DecodeStatus.FINISHED
        else DecodeStatus.NEEDS_MORE_INPUT⟩

/-- Modelled from the spec: process-wide state relevant to
`initJavaFieldIdCache` — the field-lookup metadata cache plus the states of
all StreamDecompressor instances in the process. -/
structure ProcessState where
  fieldIdCached : Bool
  instances : List HandleState
  deriving DecidableEq

/-- Modelled from the spec (the method body is absent from the fragment):
`initJavaFieldIdCache` — caches the field-lookup metadata for the composite
result type, touches no per-instance state, and returns an integer status
code. -/
def initJavaFieldIdCacheM (p : ProcessState) : Int × ProcessState :=
  (0, ⟨true, p.instances⟩)

theorem decodeStep_ok_eq (dec : List Nat → CodecView) (st : DecoderState)
    (chunk : List Nat) (cap : Nat) (out : List Nat) (fin : Bool)
    (h : dec (st.fed ++ chunk) = CodecView.ok out fin) :
    decodeStep dec st chunk cap =
      (⟨chunk.length, ((out.drop st.emitted).take cap).length,
          if cap < (out.drop st.emitted).length then DecodeStatus.HAS_MORE_OUTPUT
          else if fin then DecodeStatus.FINISHED
          else DecodeStatus.NEEDS_MORE_INPUT⟩,
        (out.drop st.emitted).take cap,
        HandleState.active
          ⟨st.fed ++ chunk, st.emitted + ((out.drop st.emitted).take cap).length⟩) := by
  simp [decodeStep, h]

theorem decodeStep_corrupt_eq (dec : List Nat → CodecView) (st : DecoderState)
    (chunk : List Nat) (cap : Nat)
    (h : dec (st.fed ++ chunk) = CodecView.corrupt) :
    decodeStep dec st chunk cap =
      (⟨chunk.length, 0, DecodeStatus.ERROR⟩, [], HandleState.errored) := by
  simp [decodeStep, h]

theorem writeSlice_take (s : ArraySlice) (bytes : List Nat)
    (hoff : s.off ≤ s.backing.length) :
    (writeSlice s bytes).take s.off = s.backing.take s.off := by
  have hA : (s.backing.take s.off).length = s.off := by
    simp [List.length_take]
    omega
  unfold writeSlice
  rw [List.append_assoc]
  exact List.take_left' hA

theorem writeSlice_drop (s : ArraySlice) (bytes : List Nat)
    (hb : bytes.length ≤ s.len) (hv : sliceOk s) :
    (writeSlice s bytes).drop (s.off + s.len) = s.backing.drop (s.off + s.len) := by
  have hoff : s.off ≤ s.backing.length := le_trans (Nat.le_add_right _ _) hv
  have hA : (s.backing.take s.off).length = s.off := by
    simp [List.length_take]
    omega
  unfold writeSlice
  rw [List.append_assoc, List.drop_append_eq_append_drop,
    List.drop_append_eq_append_drop, List.drop_drop]
  rw [List.drop_eq_nil_of_le (by omega : (s.backing.take s.off).length ≤ s.off + s.len)]
  rw [List.drop_eq_nil_of_le (by omega : bytes.length ≤ s.off + s.len - (s.backing.take s.off).length)]
  simp only [List.nil_append]
  congr 1
  omega

theorem opStep_conserve (dec : List Nat → CodecView) (h : HandleState) (op : Op) :
    (opStep dec h op).2.1 + allocCount h =
      (opStep dec h op).2.2 + allocCount (opStep dec h op).1 := by
  cases op with
  | opInit => cases h <;> simp [opStep, initBrotliDeCompressorM, allocCount]
  | opFree => cases h <;> simp [opStep, freeNativeResourcesM, allocCount]
  | opCall input output =>
      cases h with
      | active st =>
          simp only [opStep, deCompressBytesM]
          split
          · cases hdec : dec (st.fed ++ readSlice input) <;>
              simp [decodeStep, hdec, allocCount]
          · simp [allocCount]
      | fresh => simp [opStep, deCompressBytesM, allocCount]
      | errored => simp [opStep, deCompressBytesM, allocCount]
      | released => simp [opStep, deCompressBytesM, allocCount]

theorem runOps_conserve (dec : List Nat → CodecView) :
    ∀ (ops : List Op) (h : HandleState),
      (runOps dec h ops).2.1 + allocCount h =
        (runOps dec h ops).2.2 + allocCount (runOps dec h ops).1 := by
  intro ops
  induction ops with
  | nil => intro h; simp [runOps]
  | cons op rest ih =>
      intro h
      have h1 := opStep_conserve dec h op
      have h2 := ih (opStep dec h op).1
      simp only [runOps]
      omega

theorem idCodec_good : GoodCodec idCodec := by
  constructor
  · intro a b out fin out2 fin2 h1 h2
    simp only [idCodec] at h1 h2
    injection h1 with ha hf
    injection h2 with ha2 hf2
    subst ha
    subst ha2
    exact List.take_left a b
  · intro a b out fin h
    exact ⟨a, true, rfl⟩

theorem runCalls_drain (dec : List Nat → CodecView) (hg : GoodCodec dec) :
    ∀ (calls : List (List Nat × Nat)) (st : DecoderState) (out : List Nat) (fin : Bool),
      dec (st.fed ++ joinChunks calls) = CodecView.ok out fin →
      st.emitted ≤ outLenAt dec st.fed →
      (runCalls dec st calls).2.fed = st.fed ++ joinChunks calls ∧
      st.emitted ≤ (runCalls dec st calls).2.emitted ∧
      (runCalls dec st calls).2.emitted ≤ out.length ∧
      (runCalls dec st calls).1 =
        (out.drop st.emitted).take ((runCalls dec st calls).2.emitted - st.emitted) := by
  intro calls
  induction calls with
  | nil =>
      intro st out fin hfull hinv
      have hj : joinChunks ([] : List (List Nat × Nat)) = [] := rfl
      rw [hj, List.append_nil] at hfull
      have hlen : outLenAt dec st.fed = out.length := by
        simp [outLenAt, hfull]
      refine ⟨by simp [runCalls, hj], le_refl _, ?_, by simp [runCalls]⟩
      simp [runCalls]
      omega
  | cons c rest ih =>
      intro st out fin hfull hinv
      obtain ⟨chunk, cap⟩ := c
      have hj : joinChunks ((chunk, cap) :: rest) = chunk ++ joinChunks rest := rfl
      rw [hj, ← List.append_assoc] at hfull
      obtain ⟨o1, f1, h1⟩ := hg.extendOk (st.fed ++ chunk) (joinChunks rest) out fin hfull
      have ho1 : out.take o1.length = o1 := hg.mono _ _ _ _ _ _ h1 hfull
      obtain ⟨o0, f0, h0⟩ := hg.extendOk st.fed chunk o1 f1 h1
      have ho0 : o1.take o0.length = o0 := hg.mono _ _ _ _ _ _ h0 h1
      have hlen0 : o0.length ≤ o1.length := by
        have hc := congrArg List.length ho0
        simp [List.length_take] at hc
        omega
      have hlen1 : o1.length ≤ out.length := by
        have hc := congrArg List.length ho1
        simp [List.length_take] at hc
        omega
      have houtlen : outLenAt dec st.fed = o0.length := by
        simp [outLenAt, h0]
      have hinv1 : st.emitted ≤ o1.length := by omega
      have hstep := decodeStep_ok_eq dec st chunk cap o1 f1 h1
      have hkmin : ((o1.drop st.emitted).take cap).length =
          min cap (o1.length - st.emitted) := by
        simp [List.length_take, List.length_drop]
      have hrun : runCalls dec st ((chunk, cap) :: rest) =
          ((o1.drop st.emitted).take cap ++
              (runCalls dec
                ⟨st.fed ++ chunk,
                  st.emitted + ((o1.drop st.emitted).take cap).length⟩ rest).1,
            (runCalls dec
              ⟨st.fed ++ chunk,
                st.emitted + ((o1.drop st.emitted).take cap).length⟩ rest).2) := by
        simp only [runCalls, hstep]
      have hfull' : dec ((st.fed ++ chunk) ++ joinChunks rest) = CodecView.ok out fin :=
        hfull
      have hinv2 : st.emitted + ((o1.drop st.emitted).take cap).length ≤
          outLenAt dec (st.fed ++ chunk) := by
        have : outLenAt dec (st.fed ++ chunk) = o1.length := by
          simp [outLenAt, h1]
        omega
      have IH := ih ⟨st.fed ++ chunk,
        st.emitted + ((o1.drop st.emitted).take cap).length⟩ out fin hfull' hinv2
      obtain ⟨IH1, IH2, IH3, IH4⟩ := IH
      dsimp only at IH1 IH2 IH3 IH4
      rw [hrun]
      refine ⟨?_, ?_, IH3, ?_⟩
      · rw [IH1]
        simp [hj, List.append_assoc]
      · exact le_trans (Nat.le_add_right _ _) IH2
      · have hemit : (o1.drop st.emitted).take cap =
            (out.drop st.emitted).take ((o1.drop st.emitted).take cap).length := by
          conv_lhs => rw [← ho1]
          rw [List.drop_take, List.take_take, hkmin]
        have hsplit :
            (runCalls dec
                ⟨st.fed ++ chunk,
                  st.emitted + ((o1.drop st.emitted).take cap).length⟩ rest).2.emitted
              - st.emitted =
            ((o1.drop st.emitted).take cap).length +
              ((runCalls dec
                  ⟨st.fed ++ chunk,
                    st.emitted + ((o1.drop st.emitted).take cap).length⟩ rest).2.emitted
                - (st.emitted + ((o1.drop st.emitted).take cap).length)) := by
          omega
        rw [hsplit, List.take_add, ← hemit, List.drop_drop, ← IH4]

theorem decodeStep_produced_eq (dec : List Nat → CodecView) (st : DecoderState)
    (chunk : List Nat) (cap : Nat) :
    (decodeStep dec st chunk cap).1.produced = (decodeStep dec st chunk cap).2.1.length := by
  cases hdec : dec (st.fed ++ chunk) <;> simp [decodeStep, hdec]

theorem decodeStep_emit_le (dec : List Nat → CodecView) (st : DecoderState)
    (chunk : List Nat) (cap : Nat) :
    (decodeStep dec st chunk cap).2.1.length ≤ cap := by
  cases hdec : dec (st.fed ++ chunk) with
  | ok out fin =>
      simp [decodeStep, hdec, List.length_take]
  | corrupt =>
      simp [decodeStep, hdec]

/-- Claim C1: for every valid compressed byte sequence (one the codec decodes
to a finished output), every partition of it into input chunks (0-byte chunks
included) and every sequence of per-call output capacities, a chunked run of
the decode core that drains the whole output produces exactly the bytes a
single-call decode of the concatenated input produces. -/
theorem claim_C1_chunked_decode_byte_identical
    (dec : List Nat → CodecView) (hg : GoodCodec dec)
    (calls : List (List Nat × Nat)) (out : List Nat) (fin : Bool)
    (hfull : dec (joinChunks calls) = CodecView.ok out fin)
    (hdrained : (runCalls dec ⟨[], 0⟩ calls).2.emitted = out.length) :
    (runCalls dec ⟨[], 0⟩ calls).1 = out := by
  obtain ⟨-, -, -, h4⟩ :=
    runCalls_drain dec hg calls ⟨[], 0⟩ out fin hfull (Nat.zero_le _)
  rw [h4]
  simp [hdrained]

theorem claim_C1_witness :
    GoodCodec idCodec ∧
    idCodec (joinChunks [([1, 2], 5), ([], 0), ([3], 5)]) = CodecView.ok [1, 2, 3] true ∧
    (runCalls idCodec ⟨[], 0⟩ [([1, 2], 5), ([], 0), ([3], 5)]).2.emitted = ([1, 2, 3] : List Nat).length ∧
    (runCalls idCodec ⟨[], 0⟩ [([1, 2], 5), ([], 0), ([3], 5)]).1 = [1, 2, 3] :=
  ⟨idCodec_good, by decide, by decide,
    claim_C1_chunked_decode_byte_identical idCodec idCodec_good
      [([1, 2], 5), ([], 0), ([3], 5)] [1, 2, 3] true (by decide) (by decide)⟩

/-- Claim C2: a valid decompress call returns its composite DecodeResult —
consumed, produced, status — in one `Except.ok` return value; the only
caller-visible mutation is stream bytes written into the output region
(never result metadata), and both decompress declarations in the header
carry a non-void single return slot. -/
theorem claim_C2_composite_result (dec : List Nat → CodecView) (st : DecoderState)
    (input output : ArraySlice) (hin : sliceOk input) (hout : sliceOk output) :
    (deCompressBytesM dec (HandleState.active st) input output).res =
      Except.ok (decodeResultOf dec st input output) ∧
    (∃ bytes, bytes.length ≤ output.len ∧
      (deCompressBytesM dec (HandleState.active st) input output).outBacking =
        writeSlice output bytes) ∧
    Java_org_meteogroup_jbrotli_BrotliStreamDeCompressor_deCompressBytes.cReturnType ≠
      CType.jvoid ∧
    Java_org_meteogroup_jbrotli_BrotliStreamDeCompressor_deCompressBytes.sigReturn ≠
      JDesc.V ∧
    Java_org_meteogroup_jbrotli_BrotliStreamDeCompressor_deCompressByteBuffer.cReturnType ≠
      CType.jvoid ∧
    Java_org_meteogroup_jbrotli_BrotliStreamDeCompressor_deCompressByteBuffer.sigReturn ≠
      JDesc.V := by
  refine ⟨?_, ?_, by decide, by decide, by decide, by decide⟩
  · simp only [deCompressBytesM, if_pos (And.intro hin hout)]
    cases hdec : dec (st.fed ++ readSlice input) with
    | ok out fin =>
        simp [decodeStep, decodeResultOf, hdec, List.length_take, List.length_drop]
    | corrupt =>
        simp [decodeStep, decodeResultOf, hdec]
  · refine ⟨(decodeStep dec st (readSlice input) output.len).2.1,
      decodeStep_emit_le dec st (readSlice input) output.len, ?_⟩
    simp [deCompressBytesM, if_pos (And.intro hin hout)]

theorem claim_C2_witness :
    sliceOk ⟨[4, 5], 0, 2⟩ ∧ sliceOk ⟨[0, 0, 0], 0, 3⟩ ∧
    (deCompressBytesM idCodec (HandleState.active ⟨[], 0⟩)
        ⟨[4, 5], 0, 2⟩ ⟨[0, 0, 0], 0, 3⟩).res =
      Except.ok (decodeResultOf idCodec ⟨[], 0⟩ ⟨[4, 5], 0, 2⟩ ⟨[0, 0, 0], 0, 3⟩) :=
  ⟨by decide, by decide,
    (claim_C2_composite_result idCodec ⟨[], 0⟩ ⟨[4, 5], 0, 2⟩ ⟨[0, 0, 0], 0, 3⟩
      (by decide) (by decide)).1⟩

/-- Claim C3: releasing is idempotent — every release call returns status 0,
a second (or any later) release finds the handle released, succeeds and
performs zero native frees — and every decompress call issued after a
release fails with UseAfterReleaseError without touching native memory. -/
theorem claim_C3_release_idempotent :
    ∀ h : HandleState,
      (freeNativeResourcesM h).1 = 0 ∧
      freeNativeResourcesM (freeNativeResourcesM h).2.1 = (0, HandleState.released, 0) ∧
      ∀ (dec : List Nat → CodecView) (input output : ArraySlice),
        (deCompressBytesM dec (freeNativeResourcesM h).2.1 input output).res =
          Except.error BrotliError.UseAfterReleaseError ∧
        (deCompressBytesM dec (freeNativeResourcesM h).2.1 input output).nativeTouched =
          false := by
  intro h
  cases h <;> exact ⟨rfl, rfl, fun dec input output => ⟨rfl, rfl⟩⟩

/-- Claim C4: a decompress call on an active handle whose input or output
slice exceeds its backing fails with InvalidArgumentError, changes nothing
and performs no native memory access; a valid call produces at most
`output.len` bytes and leaves the output backing unchanged before
`output.off` and from `output.off + output.len` on. -/
theorem claim_C4_bounds_safety (dec : List Nat → CodecView) (st : DecoderState)
    (input output : ArraySlice) :
    (¬ (sliceOk input ∧ sliceOk output) →
      deCompressBytesM dec (HandleState.active st) input output =
        ⟨Except.error BrotliError.InvalidArgumentError, HandleState.active st,
          output.backing, false⟩) ∧
    (sliceOk input → sliceOk output →
      (∀ r, (deCompressBytesM dec (HandleState.active st) input output).res =
          Except.ok r → r.produced ≤ output.len) ∧
      (deCompressBytesM dec (HandleState.active st) input output).outBacking.take
          output.off = output.backing.take output.off ∧
      (deCompressBytesM dec (HandleState.active st) input output).outBacking.drop
          (output.off + output.len) =
        output.backing.drop (output.off + output.len)) := by
  constructor
  · intro hbad
    simp only [deCompressBytesM, if_neg hbad]
  · intro hin hout
    refine ⟨?_, ?_, ?_⟩
    · intro r hr
      simp only [deCompressBytesM, if_pos (And.intro hin hout)] at hr
      injection hr with hr
      rw [← hr, decodeStep_produced_eq]
      exact decodeStep_emit_le dec st (readSlice input) output.len
    · simp only [deCompressBytesM, if_pos (And.intro hin hout)]
      exact writeSlice_take output _ (le_trans (Nat.le_add_right _ _) hout)
    · simp only [deCompressBytesM, if_pos (And.intro hin hout)]
      exact writeSlice_drop output _
        (decodeStep_emit_le dec st (readSlice input) output.len) hout

theorem claim_C4_witness :
    (¬ (sliceOk ⟨[1], 0, 5⟩ ∧ sliceOk ⟨[9], 0, 1⟩) ∧
      deCompressBytesM idCodec (HandleState.active ⟨[], 0⟩) ⟨[1], 0, 5⟩ ⟨[9], 0, 1⟩ =
        ⟨Except.error BrotliError.InvalidArgumentError, HandleState.active ⟨[], 0⟩,
          [9], false⟩) ∧
    (sliceOk ⟨[1], 0, 1⟩ ∧ sliceOk ⟨[9, 9], 1, 1⟩ ∧
      (deCompressBytesM idCodec (HandleState.active ⟨[], 0⟩)
          ⟨[1], 0, 1⟩ ⟨[9, 9], 1, 1⟩).outBacking.take 1 = ([9, 9] : List Nat).take 1) :=
  ⟨⟨by decide,
      (claim_C4_bounds_safety idCodec ⟨[], 0⟩ ⟨[1], 0, 5⟩ ⟨[9], 0, 1⟩).1 (by decide)⟩,
    ⟨by decide, by decide,
      ((claim_C4_bounds_safety idCodec ⟨[], 0⟩ ⟨[1], 0, 1⟩ ⟨[9, 9], 1, 1⟩).2
        (by decide) (by decide)).2.1⟩⟩

/-- Claim C5: feeding input the codec calls corrupt yields a composite
result with status ERROR, zero produced bytes and an unchanged output
backing (no silent wrong output); the handle becomes errored, every later
decompress call on it fails and touches no native memory, re-initialization
of the errored handle is refused, and only after a release (which frees the
native decoder) can the instance be initialized again. -/
theorem claim_C5_corrupt_stream (dec : List Nat → CodecView) (st : DecoderState)
    (input output : ArraySlice) (hin : sliceOk input) (hout : sliceOk output)
    (hcor : dec (st.fed ++ readSlice input) = CodecView.corrupt) :
    (deCompressBytesM dec (HandleState.active st) input output).res =
      Except.ok ⟨(readSlice input).length, 0, DecodeStatus.ERROR⟩ ∧
    (deCompressBytesM dec (HandleState.active st) input output).outBacking =
      output.backing ∧
    (deCompressBytesM dec (HandleState.active st) input output).handle =
      HandleState.errored ∧
    (∀ input2 output2 : ArraySlice,
      (deCompressBytesM dec HandleState.errored input2 output2).res =
        Except.error BrotliError.CorruptStreamError ∧
      (deCompressBytesM dec HandleState.errored input2 output2).nativeTouched = false) ∧
    initBrotliDeCompressorM HandleState.errored =
      Except.error BrotliError.InitializationError ∧
    freeNativeResourcesM HandleState.errored = (0, HandleState.released, 1) ∧
    initBrotliDeCompressorM HandleState.released =
      Except.ok (HandleState.active ⟨[], 0⟩) := by
  have hstep := decodeStep_corrupt_eq dec st (readSlice input) output.len hcor
  refine ⟨?_, ?_, ?_, fun input2 output2 => ⟨rfl, rfl⟩, rfl, rfl, rfl⟩
  · simp [deCompressBytesM, if_pos (And.intro hin hout), hstep]
  · simp [deCompressBytesM, if_pos (And.intro hin hout), hstep, writeSlice]
  · simp [deCompressBytesM, if_pos (And.intro hin hout), hstep]

theorem claim_C5_witness :
    sliceOk ⟨[0], 0, 1⟩ ∧ sliceOk ⟨[9], 0, 1⟩ ∧
    strictCodec (([] : List Nat) ++ readSlice ⟨[0], 0, 1⟩) = CodecView.corrupt ∧
    (deCompressBytesM strictCodec (HandleState.active ⟨[], 0⟩)
        ⟨[0], 0, 1⟩ ⟨[9], 0, 1⟩).res =
      Except.ok ⟨(readSlice ⟨[0], 0, 1⟩).length, 0, DecodeStatus.ERROR⟩ :=
  ⟨by decide, by decide, by decide,
    (claim_C5_corrupt_stream strictCodec ⟨[], 0⟩ ⟨[0], 0, 1⟩ ⟨[9], 0, 1⟩
      (by decide) (by decide) (by decide)).1⟩

/-- Claim C6: the lifecycle invariant — init on a fresh instance creates the
active handle, init on an active one is refused, teardown on an active
handle frees its one allocation, decompress calls on a handle that was
never initialized or was released fail without effect, and over any
operation sequence from fresh every native allocation is freed at most once
(allocations = frees + live allocations). -/
theorem claim_C6_lifecycle (dec : List Nat → CodecView) :
    initBrotliDeCompressorM HandleState.fresh =
      Except.ok (HandleState.active ⟨[], 0⟩) ∧
    (∀ st, initBrotliDeCompressorM (HandleState.active st) =
      Except.error BrotliError.InitializationError) ∧
    (∀ st, freeNativeResourcesM (HandleState.active st) =
      (0, HandleState.released, 1)) ∧
    (∀ input output : ArraySlice,
      (deCompressBytesM dec HandleState.fresh input output).res =
        Except.error BrotliError.InitializationError ∧
      (deCompressBytesM dec HandleState.fresh input output).handle =
        HandleState.fresh ∧
      (deCompressBytesM dec HandleState.fresh input output).nativeTouched = false) ∧
    (∀ input output : ArraySlice,
      (deCompressBytesM dec HandleState.released input output).res =
        Except.error BrotliError.UseAfterReleaseError ∧
      (deCompressBytesM dec HandleState.released input output).handle =
        HandleState.released ∧
      (deCompressBytesM dec HandleState.released input output).nativeTouched = false) ∧
    (∀ (ops : List Op) (h' : HandleState) (a f : Nat),
      runOps dec HandleState.fresh ops = (h', a, f) → a = f + allocCount h') := by
  refine ⟨rfl, fun st => rfl, fun st => rfl,
    fun input output => ⟨rfl, rfl, rfl⟩, fun input output => ⟨rfl, rfl, rfl⟩, ?_⟩
  intro ops h' a f hrun
  have hcons := runOps_conserve dec ops HandleState.fresh
  rw [hrun] at hcons
  simpa [allocCount] using hcons

theorem claim_C6_witness :
    runOps idCodec HandleState.fresh [Op.opInit, Op.opFree] =
      (HandleState.released, 1, 1) ∧
    (1 : Nat) = 1 + allocCount HandleState.released :=
  ⟨by decide,
    (claim_C6_lifecycle idCodec).2.2.2.2.2 [Op.opInit, Op.opFree]
      HandleState.released 1 1 (by decide)⟩

/-- Claim C7: on a freshly initialized handle with no prior data, a
zero-byte decompress call reports NEEDS_MORE_INPUT with consumed = 0 and
produced = 0 and leaves the decoder state exactly as it was (so every later
call returns what it would have returned anyway); more generally a
zero-input call on a drained decoder is a no-op. -/
theorem claim_C7_zero_byte_noop (dec : List Nat → CodecView) (cap : Nat)
    (h0 : dec [] = CodecView.ok [] false) :
    decodeStep dec ⟨[], 0⟩ [] cap =
      (⟨0, 0, DecodeStatus.NEEDS_MORE_INPUT⟩, [], HandleState.active ⟨[], 0⟩) ∧
    (∀ (st : DecoderState) (out : List Nat) (fin : Bool) (cap2 : Nat),
      dec st.fed = CodecView.ok out fin → st.emitted = out.length →
      decodeStep dec st [] cap2 =
        (⟨0, 0, if fin then DecodeStatus.FINISHED else DecodeStatus.NEEDS_MORE_INPUT⟩,
          [], HandleState.active st)) := by
  constructor
  · simp [decodeStep, h0]
  · intro st out fin cap2 hdec hemit
    obtain ⟨fed, emitted⟩ := st
    dsimp only at hdec hemit
    subst hemit
    have h' : dec (fed ++ []) = CodecView.ok out fin := by simpa using hdec
    rw [decodeStep_ok_eq dec ⟨fed, out.length⟩ [] cap2 out fin h']
    simp

theorem claim_C7_witness :
    sentinelCodec [] = CodecView.ok [] false ∧
    decodeStep sentinelCodec ⟨[], 0⟩ [] 4 =
      (⟨0, 0, DecodeStatus.NEEDS_MORE_INPUT⟩, [], HandleState.active ⟨[], 0⟩) :=
  ⟨by decide, (claim_C7_zero_byte_noop sentinelCodec 4 (by decide)).1⟩

/-- Claim C8: the buffer-view entry point implements the same contract as
the array entry point — for every decoder state and every pair of memory
regions it returns the identical composite result, successor handle state,
output bytes and native-access behaviour; the two differ only in how the
regions are marshalled. -/
theorem claim_C8_buffer_overload_equiv (dec : List Nat → CodecView) (h : HandleState)
    (inBuf : ByteBuf) (inOff inLen : Nat) (outBuf : ByteBuf) (outOff outLen : Nat) :
    deCompressByteBufferM dec h inBuf inOff inLen outBuf outOff outLen =
      deCompressBytesM dec h ⟨inBuf.data, inOff, inLen⟩ ⟨outBuf.data, outOff, outLen⟩ := by
  cases h with
  | fresh => rfl
  | errored => rfl
  | released => rfl
  | active st =>
      have hread : readBufRegion inBuf inOff inLen =
          readSlice ⟨inBuf.data, inOff, inLen⟩ := by
        unfold readBufRegion readSlice
        dsimp only
        rw [List.drop_take]
        congr 1
        omega
      have hiff : (inOff ≤ inBuf.data.length ∧ inLen ≤ inBuf.data.length - inOff ∧
            outOff ≤ outBuf.data.length ∧ outLen ≤ outBuf.data.length - outOff) ↔
          (sliceOk ⟨inBuf.data, inOff, inLen⟩ ∧
            sliceOk ⟨outBuf.data, outOff, outLen⟩) := by
        unfold sliceOk
        dsimp only
        omega
      simp only [deCompressByteBufferM, deCompressBytesM, hread]
      by_cases hcond : sliceOk (⟨inBuf.data, inOff, inLen⟩ : ArraySlice) ∧
          sliceOk (⟨outBuf.data, outOff, outLen⟩ : ArraySlice)
      · rw [if_pos (hiff.mpr hcond), if_pos hcond]
        unfold writeSlice
        rfl
      · rw [if_neg (fun hc => hcond (hiff.mp hc)), if_neg hcond]

/-- Claim C9: `initJavaFieldIdCache` is declared class-level (its receiver
is the class, not an instance), takes no data parameters in either the C
declaration or the Java signature, returns an integer status code, and its
modelled effect touches only the process-wide field-metadata cache —
per-instance state is untouched and a repeated call changes nothing. -/
theorem claim_C9_field_cache_classlevel :
    Java_org_meteogroup_jbrotli_BrotliStreamDeCompressor_initJavaFieldIdCache.receiver =
      CType.jclass ∧
    Java_org_meteogroup_jbrotli_BrotliStreamDeCompressor_initJavaFieldIdCache.cParams =
      [] ∧
    Java_org_meteogroup_jbrotli_BrotliStreamDeCompressor_initJavaFieldIdCache.sigParams =
      [] ∧
    Java_org_meteogroup_jbrotli_BrotliStreamDeCompressor_initJavaFieldIdCache.cReturnType =
      CType.jint ∧
    Java_org_meteogroup_jbrotli_BrotliStreamDeCompressor_initJavaFieldIdCache.sigReturn =
      JDesc.I ∧
    (∀ p : ProcessState, (initJavaFieldIdCacheM p).2.instances = p.instances) ∧
    (∀ p : ProcessState, (initJavaFieldIdCacheM p).1 = 0) ∧
    (∀ p : ProcessState,
      initJavaFieldIdCacheM (initJavaFieldIdCacheM p).2 = initJavaFieldIdCacheM p) :=
  ⟨rfl, rfl, rfl, rfl, rfl, fun _ => rfl, fun _ => rfl, fun _ => rfl⟩

/-- Claim C10: for both decompress entry points the header's C declaration
returns `jobject` (a reference) while the machine-generated Java signature
comment ends in `J` (primitive long): the two declared encodings of the
composite per-call result disagree — whereas the three lifecycle entry
points' declarations agree with their signatures. -/
theorem claim_C10_return_encoding_mismatch :
    Java_org_meteogroup_jbrotli_BrotliStreamDeCompressor_deCompressBytes.cReturnType =
      CType.jobject ∧
    Java_org_meteogroup_jbrotli_BrotliStreamDeCompressor_deCompressBytes.sigReturn =
      JDesc.J ∧
    Java_org_meteogroup_jbrotli_BrotliStreamDeCompressor_deCompressByteBuffer.cReturnType =
      CType.jobject ∧
    Java_org_meteogroup_jbrotli_BrotliStreamDeCompressor_deCompressByteBuffer.sigReturn =
      JDesc.J ∧
    CType.jobject.isReferenceType = true ∧
    JDesc.J.isReferenceDesc = false ∧
    cMatchesDesc
      Java_org_meteogroup_jbrotli_BrotliStreamDeCompressor_deCompressBytes.cReturnType
      Java_org_meteogroup_jbrotli_BrotliStreamDeCompressor_deCompressBytes.sigReturn =
        false ∧
    cMatchesDesc
      Java_org_meteogroup_jbrotli_BrotliStreamDeCompressor_deCompressByteBuffer.cReturnType
      Java_org_meteogroup_jbrotli_BrotliStreamDeCompressor_deCompressByteBuffer.sigReturn =
        false ∧
    cMatchesDesc
      Java_org_meteogroup_jbrotli_BrotliStreamDeCompressor_initJavaFieldIdCache.cReturnType
      Java_org_meteogroup_jbrotli_BrotliStreamDeCompressor_initJavaFieldIdCache.sigReturn =
        true ∧
    cMatchesDesc
      Java_org_meteogroup_jbrotli_BrotliStreamDeCompressor_initBrotliDeCompressor.cReturnType
      Java_org_meteogroup_jbrotli_BrotliStreamDeCompressor_initBrotliDeCompressor.sigReturn =
        true ∧
    cMatchesDesc
      Java_org_meteogroup_jbrotli_BrotliStreamDeCompressor_freeNativeResources.cReturnType
      Java_org_meteogroup_jbrotli_BrotliStreamDeCompressor_freeNativeResources.sigReturn =
        true := by
  decide
